import Mathlib

/-!
Verification of the genetic timetable scheduler (ISLab3).

The Rust program encodes a schedule as a genome: a list of `Dna` genes
`(subject, lecturer, hour)`, positionally aligned with a flattened list of
meetings `(group, subject)`.  The fitness evaluator scans the genome in
meeting order, maintaining a set of used `(group, hour)` pairs, a set of used
`(lecturer, hour)` pairs and a mutable copy of the per-lecturer hour quotas.

Rust `HashMap`s are embedded as association lists (`assocGet` models
`HashMap::get`, first matching key wins), `HashSet`s as lists used only
through membership, and a fallible operation (a Rust `unwrap` that could
panic) returns `Option`.  Random draws are embedded by passing the raw
output of the generator explicitly; `rng.gen_range(0..n)` on raw draw `r`
is modelled as `r % n`.
-/

namespace ISLab3

abbrev GroupId := Nat
abbrev SubjectId := Nat
abbrev LecturerId := Nat

/-- Fixed number of discrete hours (`pub const HOURS: usize = 20`). -/
def HOURS : Nat := 20

/-- One gene: `Dna(pub (SubjectId, LecturerId, usize))` from the source,
with the tuple components named. -/
structure Dna where
  subject : SubjectId
  lecturer : LecturerId
  hour : Nat
deriving DecidableEq

abbrev Genome := List Dna

/-- Association-list model of `HashMap::get`: the first entry whose key
matches is returned. -/
def assocGet {β : Type} : List (Nat × β) → Nat → Option β
  | [], _ => none
  | (k, v) :: rest, x => if k = x then some v else assocGet rest x

/-- The problem description: per-group `(subject, hours)` requirements,
per-lecturer hour quotas and per-subject eligible lecturers, mirroring the
`Problem` struct (its three `HashMap`s become association lists). -/
structure Problem where
  group_requirements : List (GroupId × List (SubjectId × Nat))
  lecturer_requirements : List (LecturerId × Nat)
  subject_requirements : List (SubjectId × List LecturerId)

/-- The mutable state of one `fitness_of` scan: the accumulated score, the
two usage sets and the remaining per-lecturer quotas (a clone of
`lecturer_requirements`). -/
structure FitState where
  fitness : Int
  used_group_hours : List (GroupId × Nat)
  used_lecturer_hours : List (LecturerId × Nat)
  free_lecturer_hours : List (LecturerId × Nat)

/-- Model of `*free_lecturer_hours.get_mut(&lecturer).unwrap() -= 1`:
decrement the value stored at the first entry for `l`, or `none` when the
key is absent (the `unwrap` would panic). -/
def updateQuota : List (LecturerId × Nat) → LecturerId → Option (List (LecturerId × Nat))
  | [], _ => none
  | (k, v) :: rest, l =>
    if k = l then some ((k, v - 1) :: rest)
    else (updateQuota rest l).map (fun r => (k, v) :: r)

/-- Score contribution of one position, from the
`match (satisfies_group, satisfies_lecturer)` in the source. -/
def contribution : Bool → Bool → Int
  | true, true => 1
  | false, false => -1
  | _, _ => 0

/-- One iteration of the `fitness_of` loop body at a position whose meeting
has group `group` and whose gene carries `lecturer` and `hour`.  `none`
models the (unreachable) panic of the quota-decrement `unwrap`. -/
def fitness_step (st : FitState) (group : GroupId) (lecturer : LecturerId) (hour : Nat) :
    Option FitState :=
  if decide ((assocGet st.free_lecturer_hours lecturer).getD 0 ≠ 0) &&
      decide ((lecturer, hour) ∉ st.used_lecturer_hours) then
    match updateQuota st.free_lecturer_hours lecturer with
    | none => none
    | some free =>
      some ⟨st.fitness + contribution (decide ((group, hour) ∉ st.used_group_hours)) true,
        (group, hour) :: st.used_group_hours,
        (lecturer, hour) :: st.used_lecturer_hours, free⟩
  else
    some ⟨st.fitness + contribution (decide ((group, hour) ∉ st.used_group_hours)) false,
      (group, hour) :: st.used_group_hours,
      st.used_lecturer_hours, st.free_lecturer_hours⟩

/-- The `fitness_of` loop: `GROUP_SUBJECTS.iter().zip(genome.iter())`
processed in order; the zip stops at the shorter list. -/
def fitness_aux : List (GroupId × SubjectId) → Genome → FitState → Option FitState
  | (g, _s) :: ms, d :: ds, st =>
    match fitness_step st g d.lecturer d.hour with
    | none => none
    | some st2 => fitness_aux ms ds st2
  | _, _, st => some st

/-- The fitness evaluator `fitness_of` of `impl FitnessFunction for &Problem`,
with the global `GROUP_SUBJECTS` passed explicitly as `meetings`. -/
def fitness_of (p : Problem) (meetings : List (GroupId × SubjectId)) (genome : Genome) :
    Option Int :=
  (fitness_aux meetings genome ⟨0, [], [], p.lecturer_requirements⟩).map FitState.fitness

/-- `highest_possible_fitness`: the length of `GROUP_SUBJECTS` as `i64`. -/
def highest_possible_fitness (meetings : List (GroupId × SubjectId)) : Int :=
  (meetings.length : Int)

/-- `lowest_possible_fitness`: the negated length of `GROUP_SUBJECTS`. -/
def lowest_possible_fitness (meetings : List (GroupId × SubjectId)) : Int :=
  -(meetings.length : Int)

/-- Expand one group's `(subject, hours)` requirement list into `hours`
repetitions of `(group, subject)`, from the inner flat-map in `main`. -/
def expand_subjects (g : GroupId) : List (SubjectId × Nat) → List (GroupId × SubjectId)
  | [] => []
  | (s, h) :: rest => List.replicate h (g, s) ++ expand_subjects g rest

/-- The flattened meeting list `GROUP_SUBJECTS`, built once in `main` from
the group requirements by the nested flat-map. -/
def group_subjects : List (GroupId × List (SubjectId × Nat)) → List (GroupId × SubjectId)
  | [] => []
  | (g, subs) :: rest => expand_subjects g subs ++ group_subjects rest

/-- How many `(g, s)` meetings the requirements ask for: the hour-count
stored for subject `s` in group `g`, or `0` when absent. -/
def required_hours (reqs : List (GroupId × List (SubjectId × Nat))) (g : GroupId)
    (s : SubjectId) : Nat :=
  match assocGet reqs g with
  | none => 0
  | some subs => (assocGet subs s).getD 0

/-- The built-in small example constructed in `main` under `SMALL_EXAMPLE`. -/
def small_problem : Problem where
  group_requirements :=
    [(0, [(0, 2), (1, 5), (2, 2), (3, 1)]),
     (1, [(0, 1), (3, 2), (4, 6), (2, 1)]),
     (2, [(0, 1), (2, 8), (3, 1)])]
  lecturer_requirements := [(0, 6), (1, 6), (2, 10), (3, 4), (4, 4)]
  subject_requirements := [(0, [3]), (1, [0, 2]), (2, [0, 1]), (3, [4]), (4, [1, 2])]

/-- Model of `build_genome` of `RandomScheduleBuilder`, recursing over the
remaining meetings with `i` the index of the current meeting.  `rng i`
yields the raw draws `(lecturer draw, hour draw)` consumed at position `i`;
`none` models the panics (`unwrap` on a missing subject, `gen_range` over an
empty lecturer list). -/
def build_genome_aux (p : Problem) (rng : Nat → Nat × Nat) :
    List (GroupId × SubjectId) → Nat → Option Genome
  | [], _ => some []
  | m :: ms, i =>
    match assocGet p.subject_requirements m.2 with
    | none => none
    | some lecturers =>
      match lecturers[(rng i).1 % lecturers.length]? with
      | none => none
      | some lecturer =>
        match build_genome_aux p rng ms (i + 1) with
        | none => none
        | some rest => some (⟨m.2, lecturer, (rng i).2 % HOURS⟩ :: rest)

/-- `build_genome`: one gene per meeting, with a uniformly drawn eligible
lecturer and a uniformly drawn hour in `[0, HOURS)`. -/
def build_genome (p : Problem) (meetings : List (GroupId × SubjectId))
    (rng : Nat → Nat × Nat) : Option Genome :=
  build_genome_aux p rng meetings 0

/-- The `min_value` bound `Dna((0, 0, 0))` passed to `RandomValueMutator::new`. -/
def mutator_min_value : Dna := ⟨0, 0, 0⟩

/-- The `max_value` bound `Dna((0, usize::MAX, HOURS - 1))` passed to
`RandomValueMutator::new` in `main`. -/
def mutator_max_value : Dna := ⟨0, 18446744073709551615, HOURS - 1⟩

/-- Model of `random_mutated` of `impl RandomValueMutation for Dna`: the hour
is redrawn by `rng.gen_range(0..max_value.0.2)` (raw draw `rHour`), then the
lecturer is redrawn from the eligible list of the gene's unchanged subject
(raw draw `rLect`).  `none` models the panics: `gen_range` over the empty
range `0..0`, the `unwrap` on a subject missing from `subject_requirements`,
and `gen_range` over an empty lecturer list. -/
def random_mutated (p : Problem) (value _min_value max_value : Dna)
    (rHour rLect : Nat) : Option Dna :=
  if max_value.hour = 0 then none
  else
    match assocGet p.subject_requirements value.subject with
    | none => none
    | some lecturers =>
      match lecturers[rLect % lecturers.length]? with
      | none => none
      | some lecturer => some ⟨value.subject, lecturer, rHour % max_value.hour⟩

/-- Modelled from the spec (§4.5 Mutation Operator): on trigger the hour is
redrawn uniformly in `[0, HOURS)` and the lecturer uniformly from the
eligible-lecturer list of the gene's unchanged subject.  Used to compare the
spec's stated hour range with the code's `random_mutated`. -/
def random_mutated_spec (p : Problem) (value : Dna) (rHour rLect : Nat) : Option Dna :=
  match assocGet p.subject_requirements value.subject with
  | none => none
  | some lecturers =>
    match lecturers[rLect % lecturers.length]? with
    | none => none
    | some lecturer => some ⟨value.subject, lecturer, rHour % HOURS⟩

/-!
Spec-side model of the fitness evaluator, written from §4.1 of the spec:
a single scan maintaining a set of used `(group, hour)` pairs, a set of used
`(lecturer, hour)` pairs (as `Finset`s) and a per-lecturer remaining-quota
counter (as a function), with the stated flag semantics, greedy quota
consumption and `+1 / -1 / 0` contributions.
-/

/-- Modelled from the spec: the scan state of §4.1 step 1. -/
structure SpecState where
  score : Int
  usedG : Finset (GroupId × Nat)
  usedL : Finset (LecturerId × Nat)
  quota : LecturerId → Nat

/-- Modelled from the spec: `satisfies_group` is true iff `(group, hour)` was
not yet used (§4.1 step 3). -/
def specSG (ss : SpecState) (g : GroupId) (h : Nat) : Bool :=
  decide ((g, h) ∉ ss.usedG)

/-- Modelled from the spec: `satisfies_lecturer` is true iff the lecturer's
remaining quota is nonzero and `(lecturer, hour)` was not yet used
(§4.1 step 4). -/
def specSL (ss : SpecState) (l : LecturerId) (h : Nat) : Bool :=
  decide (ss.quota l ≠ 0) && decide ((l, h) ∉ ss.usedL)

/-- Modelled from the spec: `+1` if both flags are true, `-1` if both are
false, `0` otherwise (§4.1 step 6). -/
def specContribution (sg sl : Bool) : Int :=
  if sg && sl then 1 else if !sg && !sl then -1 else 0

/-- Modelled from the spec: one position of the scan — record the group
hour, and on a satisfied lecturer decrement its quota and record its hour
(§4.1 steps 3-6). -/
def specStep (ss : SpecState) (g : GroupId) (l : LecturerId) (h : Nat) : SpecState where
  score := ss.score + specContribution (specSG ss g h) (specSL ss l h)
  usedG := insert (g, h) ss.usedG
  usedL := if specSL ss l h then insert (l, h) ss.usedL else ss.usedL
  quota := if specSL ss l h then Function.update ss.quota l (ss.quota l - 1) else ss.quota

/-- Modelled from the spec: the scan over positions in meeting order. -/
def specAux : List (GroupId × SubjectId) → Genome → SpecState → SpecState
  | (g, _s) :: ms, d :: ds, ss => specAux ms ds (specStep ss g d.lecturer d.hour)
  | _, _, ss => ss

/-- Modelled from the spec: the initial scan state — empty usage sets and
quotas copied from the problem's lecturer requirements (absent lecturers
have quota `0`). -/
def initSpecState (p : Problem) : SpecState :=
  ⟨0, ∅, ∅, fun l => (assocGet p.lecturer_requirements l).getD 0⟩

/-- Modelled from the spec: the total fitness is the sum of the per-position
contributions (§4.1 step 7). -/
def fitnessSpec (p : Problem) (meetings : List (GroupId × SubjectId)) (genome : Genome) : Int :=
  (specAux meetings genome (initSpecState p)).score

/-- The per-position `(satisfies_group, satisfies_lecturer)` flags of the
scan, in meeting order. -/
def specFlags : List (GroupId × SubjectId) → Genome → SpecState → List (Bool × Bool)
  | (g, _s) :: ms, d :: ds, ss =>
    (specSG ss g d.hour, specSL ss d.lecturer d.hour) ::
      specFlags ms ds (specStep ss g d.lecturer d.hour)
  | _, _, _ => []

/-- The flags of a fitness evaluation of `genome` against `p`. -/
def fitness_flags (p : Problem) (meetings : List (GroupId × SubjectId)) (genome : Genome) :
    List (Bool × Bool) :=
  specFlags meetings genome (initSpecState p)

/-! Equation lemmas for the scan functions. -/

theorem fitness_aux_nil_left (ds : Genome) (st : FitState) :
    fitness_aux [] ds st = some st := by
  cases ds <;> rfl

theorem fitness_aux_nil_right (ms : List (GroupId × SubjectId)) (st : FitState) :
    fitness_aux ms [] st = some st := by
  cases ms <;> rfl

theorem fitness_aux_cons (g : GroupId) (s : SubjectId) (ms : List (GroupId × SubjectId))
    (d : Dna) (ds : Genome) (st : FitState) :
    fitness_aux ((g, s) :: ms) (d :: ds) st =
      match fitness_step st g d.lecturer d.hour with
      | none => none
      | some st2 => fitness_aux ms ds st2 := rfl

theorem specAux_nil_left (ds : Genome) (ss : SpecState) : specAux [] ds ss = ss := by
  cases ds <;> rfl

theorem specAux_nil_right (ms : List (GroupId × SubjectId)) (ss : SpecState) :
    specAux ms [] ss = ss := by
  cases ms <;> rfl

theorem specAux_cons (g : GroupId) (s : SubjectId) (ms : List (GroupId × SubjectId))
    (d : Dna) (ds : Genome) (ss : SpecState) :
    specAux ((g, s) :: ms) (d :: ds) ss = specAux ms ds (specStep ss g d.lecturer d.hour) := rfl

theorem specFlags_cons (g : GroupId) (s : SubjectId) (ms : List (GroupId × SubjectId))
    (d : Dna) (ds : Genome) (ss : SpecState) :
    specFlags ((g, s) :: ms) (d :: ds) ss =
      (specSG ss g d.hour, specSL ss d.lecturer d.hour) ::
        specFlags ms ds (specStep ss g d.lecturer d.hour) := rfl

/-! Refinement: the code-side scan state tracks the spec-side one. -/

theorem contribution_eq_specContribution (sg sl : Bool) :
    contribution sg sl = specContribution sg sl := by
  cases sg <;> cases sl <;> rfl

theorem updateQuota_spec {free : List (LecturerId × Nat)} {l : LecturerId} {n : Nat}
    (h : assocGet free l = some n) :
    ∃ free2, updateQuota free l = some free2 ∧
      ∀ x, assocGet free2 x = if x = l then some (n - 1) else assocGet free x := by
  induction free with
  | nil => simp [assocGet] at h
  | cons kv rest ih =>
    obtain ⟨k, v⟩ := kv
    by_cases hk : k = l
    · subst hk
      have hv : v = n := by simpa [assocGet] using h
      refine ⟨(k, v - 1) :: rest, by simp [updateQuota], fun x => ?_⟩
      by_cases hx : x = k
      · subst hx; simp [assocGet, hv]
      · have hkx : ¬ k = x := fun hh => hx (hh ▸ rfl)
        simp [assocGet, hkx, hx]
    · simp only [assocGet, if_neg hk] at h
      obtain ⟨rest2, hr1, hr2⟩ := ih h
      refine ⟨(k, v) :: rest2, by simp [updateQuota, hk, hr1], fun x => ?_⟩
      by_cases hx : x = l
      · subst hx
        have hkx : ¬ k = x := hk
        simp [assocGet, hk, hr2, if_pos rfl]
      · by_cases hkx : k = x
        · simp [assocGet, hkx, hx]
        · simp [assocGet, hkx, hx, hr2 x]

/-- The correspondence between a code-side `FitState` and a spec-side
`SpecState`: equal scores, usage lists realizing the usage sets, and the
quota association list realizing the quota function (absent key means
quota `0`). -/
def StateRel (st : FitState) (ss : SpecState) : Prop :=
  st.fitness = ss.score ∧
  (∀ g h, (g, h) ∈ st.used_group_hours ↔ ((g, h) : GroupId × Nat) ∈ ss.usedG) ∧
  (∀ l h, (l, h) ∈ st.used_lecturer_hours ↔ ((l, h) : LecturerId × Nat) ∈ ss.usedL) ∧
  (∀ l, (assocGet st.free_lecturer_hours l).getD 0 = ss.quota l)

theorem fitness_step_rel {st : FitState} {ss : SpecState} (hrel : StateRel st ss)
    (g : GroupId) (l : LecturerId) (hr : Nat) :
    ∃ st2, fitness_step st g l hr = some st2 ∧ StateRel st2 (specStep ss g l hr) := by
  obtain ⟨hf, hG, hL, hQ⟩ := hrel
  have hsg : decide ((g, hr) ∉ st.used_group_hours) = specSG ss g hr := by
    simp [specSG, hG]
  have hsl : (decide ((assocGet st.free_lecturer_hours l).getD 0 ≠ 0) &&
      decide ((l, hr) ∉ st.used_lecturer_hours)) = specSL ss l hr := by
    simp [specSL, hL, hQ]
  by_cases hcase : specSL ss l hr = true
  · have hq : ss.quota l ≠ 0 := by
      simp only [specSL, Bool.and_eq_true, decide_eq_true_eq] at hcase
      exact hcase.1
    have hmem : ((l, hr) : LecturerId × Nat) ∉ ss.usedL := by
      simp only [specSL, Bool.and_eq_true, decide_eq_true_eq] at hcase
      exact hcase.2
    have hsome : assocGet st.free_lecturer_hours l = some (ss.quota l) := by
      have := hQ l
      cases hh : assocGet st.free_lecturer_hours l with
      | none => rw [hh] at this; simp at this; exact absurd this.symm hq
      | some n => rw [hh] at this; simp at this; rw [this]
    obtain ⟨free2, hup, hfree2⟩ := updateQuota_spec hsome
    refine ⟨⟨st.fitness + contribution (decide ((g, hr) ∉ st.used_group_hours)) true,
      (g, hr) :: st.used_group_hours, (l, hr) :: st.used_lecturer_hours, free2⟩,
      ?_, ?_, ?_, ?_, ?_⟩
    · simp only [fitness_step, hsl, hcase, if_true, hup]
    · show st.fitness + contribution (decide ((g, hr) ∉ st.used_group_hours)) true = _
      simp only [specStep]
      rw [hf, hsg, contribution_eq_specContribution, hcase]
    · intro g2 h2
      show (g2, h2) ∈ (g, hr) :: st.used_group_hours ↔ _
      simp only [specStep, List.mem_cons, Finset.mem_insert, hG, Prod.mk.injEq,
        Prod.ext_iff]
    · intro l2 h2
      show (l2, h2) ∈ (l, hr) :: st.used_lecturer_hours ↔ _
      simp only [specStep, hcase, if_true, List.mem_cons, Finset.mem_insert, hL,
        Prod.mk.injEq, Prod.ext_iff]
    · intro x
      show (assocGet free2 x).getD 0 = _
      simp only [specStep, hcase, if_true, hfree2 x]
      by_cases hx : x = l
      · subst hx; simp [Function.update]
      · simp [Function.update, hx, hQ x]
  · have hcf : specSL ss l hr = false := by
      cases hh : specSL ss l hr
      · rfl
      · exact absurd hh hcase
    refine ⟨⟨st.fitness + contribution (decide ((g, hr) ∉ st.used_group_hours)) false,
      (g, hr) :: st.used_group_hours, st.used_lecturer_hours, st.free_lecturer_hours⟩,
      ?_, ?_, ?_, ?_, ?_⟩
    · simp only [fitness_step, hsl, hcf, if_false, Bool.false_eq_true]
    · show st.fitness + contribution (decide ((g, hr) ∉ st.used_group_hours)) false = _
      simp only [specStep]
      rw [hf, hsg, contribution_eq_specContribution, hcf]
    · intro g2 h2
      show (g2, h2) ∈ (g, hr) :: st.used_group_hours ↔ _
      simp only [specStep, List.mem_cons, Finset.mem_insert, hG, Prod.mk.injEq,
        Prod.ext_iff]
    · intro l2 h2
      show (l2, h2) ∈ st.used_lecturer_hours ↔ _
      simp only [specStep, hcf, Bool.false_eq_true, if_false, hL]
    · intro x
      show (assocGet st.free_lecturer_hours x).getD 0 = _
      simp only [specStep, hcf, Bool.false_eq_true, if_false, hQ x]

theorem fitness_aux_rel :
    ∀ (ms : List (GroupId × SubjectId)) (ds : Genome) (st : FitState) (ss : SpecState),
      StateRel st ss →
      ∃ st2, fitness_aux ms ds st = some st2 ∧ StateRel st2 (specAux ms ds ss) := by
  intro ms
  induction ms with
  | nil =>
    intro ds st ss h
    exact ⟨st, fitness_aux_nil_left ds st, by rw [specAux_nil_left]; exact h⟩
  | cons m ms ih =>
    intro ds st ss h
    obtain ⟨g, s⟩ := m
    cases ds with
    | nil =>
      exact ⟨st, fitness_aux_nil_right _ st, by rw [specAux_nil_right]; exact h⟩
    | cons d ds =>
      obtain ⟨st2, h1, h2⟩ := fitness_step_rel h g d.lecturer d.hour
      obtain ⟨st3, h3, h4⟩ := ih ds st2 _ h2
      exact ⟨st3, by rw [fitness_aux_cons, h1]; exact h3, by rw [specAux_cons]; exact h4⟩

theorem initState_rel (p : Problem) :
    StateRel ⟨0, [], [], p.lecturer_requirements⟩ (initSpecState p) := by
  refine ⟨rfl, ?_, ?_, ?_⟩ <;> intros <;> simp [initSpecState]

/-- Central helper: the code-side evaluator never panics and returns exactly
the spec-side fitness. -/
theorem fitness_of_eq_fitnessSpec (p : Problem) (meetings : List (GroupId × SubjectId))
    (genome : Genome) :
    fitness_of p meetings genome = some (fitnessSpec p meetings genome) := by
  obtain ⟨st2, h1, h2⟩ := fitness_aux_rel meetings genome _ _ (initState_rel p)
  rw [fitness_of, h1, fitnessSpec]
  show some st2.fitness = _
  rw [h2.1]

/-! Score bounds and the two extremal scan scenarios. -/

theorem specContribution_bound (sg sl : Bool) :
    -1 ≤ specContribution sg sl ∧ specContribution sg sl ≤ 1 := by
  cases sg <;> cases sl <;> decide

theorem specAux_score_bound :
    ∀ (ms : List (GroupId × SubjectId)) (ds : Genome) (ss : SpecState),
      ss.score - ms.length ≤ (specAux ms ds ss).score ∧
        (specAux ms ds ss).score ≤ ss.score + ms.length := by
  intro ms
  induction ms with
  | nil =>
    intro ds ss
    rw [specAux_nil_left]
    simp
  | cons m ms ih =>
    intro ds ss
    obtain ⟨g, s⟩ := m
    cases ds with
    | nil =>
      rw [specAux_nil_right]
      constructor <;> · push_cast [List.length_cons]; omega
    | cons d ds =>
      rw [specAux_cons]
      have hb := specContribution_bound (specSG ss g d.hour) (specSL ss d.lecturer d.hour)
      have hih := ih ds (specStep ss g d.lecturer d.hour)
      have hscore : (specStep ss g d.lecturer d.hour).score =
          ss.score + specContribution (specSG ss g d.hour) (specSL ss d.lecturer d.hour) := rfl
      rw [hscore] at hih
      constructor <;> · push_cast [List.length_cons] at hih ⊢; omega

theorem specAux_all_satisfied :
    ∀ (ms : List (GroupId × SubjectId)) (ds : Genome) (ss : SpecState),
      ds.length = ms.length →
      (List.zipWith (fun (m : GroupId × SubjectId) (d : Dna) => (m.1, d.hour)) ms ds).Nodup →
      (∀ pr ∈ List.zipWith (fun (m : GroupId × SubjectId) (d : Dna) => (m.1, d.hour)) ms ds,
          pr ∉ ss.usedG) →
      (ds.map (fun d => (d.lecturer, d.hour))).Nodup →
      (∀ pr ∈ ds.map (fun (d : Dna) => (d.lecturer, d.hour)), pr ∉ ss.usedL) →
      (∀ l, ds.countP (fun d => decide (d.lecturer = l)) ≤ ss.quota l) →
      (specAux ms ds ss).score = ss.score + ms.length := by
  intro ms
  induction ms with
  | nil =>
    intro ds ss _ _ _ _ _ _
    rw [specAux_nil_left]
    simp
  | cons m ms ih =>
    intro ds ss hlen hG1 hG2 hL1 hL2 hQ
    obtain ⟨g, s⟩ := m
    cases ds with
    | nil => simp at hlen
    | cons d ds =>
      rw [List.zipWith_cons_cons] at hG1 hG2
      rw [List.map_cons] at hL1 hL2
      have hsg : specSG ss g d.hour = true := by
        simp only [specSG, decide_eq_true_eq]
        exact hG2 (g, d.hour) (List.mem_cons_self _ _)
      have hqpos : ss.quota d.lecturer ≠ 0 := by
        have h1 : (d :: ds).countP (fun e => decide (e.lecturer = d.lecturer)) =
            ds.countP (fun e => decide (e.lecturer = d.lecturer)) + 1 := by
          rw [List.countP_cons]
          simp
        have h2 := hQ d.lecturer
        rw [h1] at h2
        omega
      have hsl : specSL ss d.lecturer d.hour = true := by
        simp only [specSL, Bool.and_eq_true, decide_eq_true_eq]
        exact ⟨hqpos, hL2 (d.lecturer, d.hour) (List.mem_cons_self _ _)⟩
      have hstep_score : (specStep ss g d.lecturer d.hour).score = ss.score + 1 := by
        show ss.score + specContribution (specSG ss g d.hour) (specSL ss d.lecturer d.hour) = _
        rw [hsg, hsl]
        rfl
      have hstep_usedG : (specStep ss g d.lecturer d.hour).usedG =
          insert ((g, d.hour) : GroupId × Nat) ss.usedG := rfl
      have hstep_usedL : (specStep ss g d.lecturer d.hour).usedL =
          insert ((d.lecturer, d.hour) : LecturerId × Nat) ss.usedL := by
        show (if specSL ss d.lecturer d.hour then _ else _) = _
        rw [hsl]
        simp
      have hstep_quota : (specStep ss g d.lecturer d.hour).quota =
          Function.update ss.quota d.lecturer (ss.quota d.lecturer - 1) := by
        show (if specSL ss d.lecturer d.hour then _ else _) = _
        rw [hsl]
        simp
      have hres := ih ds (specStep ss g d.lecturer d.hour)
        (by simpa using hlen)
        ((List.nodup_cons.mp hG1).2)
        (by
          intro pr hpr
          rw [hstep_usedG, Finset.mem_insert]
          push_neg
          constructor
          · intro heq
            exact absurd (heq ▸ hpr) (List.nodup_cons.mp hG1).1
          · exact hG2 pr (List.mem_cons_of_mem _ hpr))
        ((List.nodup_cons.mp hL1).2)
        (by
          intro pr hpr
          rw [hstep_usedL, Finset.mem_insert]
          push_neg
          constructor
          · intro heq
            exact absurd (heq ▸ hpr) (List.nodup_cons.mp hL1).1
          · exact hL2 pr (List.mem_cons_of_mem _ hpr))
        (by
          intro l
          rw [hstep_quota]
          by_cases hx : l = d.lecturer
          · subst hx
            rw [Function.update_same]
            have h1 : (d :: ds).countP (fun e => decide (e.lecturer = d.lecturer)) =
                ds.countP (fun e => decide (e.lecturer = d.lecturer)) + 1 := by
              rw [List.countP_cons]
              simp
            have h2 := hQ d.lecturer
            rw [h1] at h2
            omega
          · rw [Function.update_noteq hx]
            have h1 : ds.countP (fun e => decide (e.lecturer = l)) ≤
                (d :: ds).countP (fun e => decide (e.lecturer = l)) := by
              rw [List.countP_cons]
              omega
            have h2 := hQ l
            omega)
      rw [specAux_cons, hres, hstep_score]
      push_cast [List.length_cons]
      ring

theorem specAux_all_failed :
    ∀ (ms : List (GroupId × SubjectId)) (ds : Genome) (ss : SpecState),
      ds.length = ms.length →
      (∀ fl ∈ specFlags ms ds ss, fl = (false, false)) →
      (specAux ms ds ss).score = ss.score - ms.length := by
  intro ms
  induction ms with
  | nil =>
    intro ds ss _ _
    rw [specAux_nil_left]
    simp
  | cons m ms ih =>
    intro ds ss hlen hfl
    obtain ⟨g, s⟩ := m
    cases ds with
    | nil => simp at hlen
    | cons d ds =>
      rw [specFlags_cons] at hfl
      have hhead := hfl _ (List.mem_cons_self _ _)
      rw [Prod.mk.injEq] at hhead
      have hstep_score : (specStep ss g d.lecturer d.hour).score = ss.score - 1 := by
        show ss.score + specContribution (specSG ss g d.hour) (specSL ss d.lecturer d.hour) = _
        rw [hhead.1, hhead.2]
        show ss.score + (-1) = ss.score - 1
        ring
      have hres := ih ds (specStep ss g d.lecturer d.hour)
        (by simpa using hlen)
        (fun fl hl => hfl fl (List.mem_cons_of_mem _ hl))
      rw [specAux_cons, hres, hstep_score]
      push_cast [List.length_cons]
      ring

/-! Counting meetings in the flattened list. -/

theorem assocGet_eq_none {β : Type} :
    ∀ (l : List (Nat × β)) (x : Nat), x ∉ l.map Prod.fst → assocGet l x = none := by
  intro l
  induction l with
  | nil => intro x _; rfl
  | cons kv rest ih =>
    intro x hx
    obtain ⟨k, v⟩ := kv
    rw [List.map_cons] at hx
    have h1 : ¬ k = x := fun hh => hx (by simp [hh])
    simp only [assocGet, if_neg h1]
    exact ih x (fun hm => hx (List.mem_cons_of_mem _ hm))

theorem count_expand_subjects (g g2 : GroupId) (s : SubjectId) :
    ∀ subs : List (SubjectId × Nat), (subs.map Prod.fst).Nodup →
      (expand_subjects g2 subs).count (g, s) =
        if g2 = g then (assocGet subs s).getD 0 else 0 := by
  intro subs
  induction subs with
  | nil =>
    intro _
    simp [expand_subjects, assocGet]
  | cons sh rest ih =>
    intro hnd
    obtain ⟨s2, h⟩ := sh
    rw [List.map_cons, List.nodup_cons] at hnd
    have hrest := ih hnd.2
    show ((List.replicate h (g2, s2) ++ expand_subjects g2 rest).count (g, s)) = _
    rw [List.count_append, List.count_replicate, hrest]
    simp only [beq_iff_eq, Prod.mk.injEq, assocGet]
    by_cases hg : g2 = g
    · by_cases hs : s2 = s
      · have hnone : assocGet rest s = none := hs ▸ assocGet_eq_none rest s2 hnd.1
        simp [hg, hs, hnone]
      · simp [hg, hs]
    · simp [hg]

theorem required_hours_of_absent {reqs : List (GroupId × List (SubjectId × Nat))}
    {g : GroupId} (h : g ∉ reqs.map Prod.fst) (s : SubjectId) :
    required_hours reqs g s = 0 := by
  simp [required_hours, assocGet_eq_none reqs g h]

theorem required_hours_cons (g2 : GroupId) (subs : List (SubjectId × Nat))
    (rest : List (GroupId × List (SubjectId × Nat))) (g : GroupId) (s : SubjectId) :
    required_hours ((g2, subs) :: rest) g s =
      if g2 = g then (assocGet subs s).getD 0 else required_hours rest g s := by
  by_cases hg : g2 = g
  · simp [required_hours, assocGet, hg]
  · simp [required_hours, assocGet, hg]

theorem count_group_subjects (g : GroupId) (s : SubjectId) :
    ∀ reqs : List (GroupId × List (SubjectId × Nat)),
      (reqs.map Prod.fst).Nodup →
      (∀ gr ∈ reqs, (gr.2.map Prod.fst).Nodup) →
      (group_subjects reqs).count (g, s) = required_hours reqs g s := by
  intro reqs
  induction reqs with
  | nil => intro _ _; rfl
  | cons gr rest ih =>
    intro h1 h2
    obtain ⟨g2, subs⟩ := gr
    rw [List.map_cons, List.nodup_cons] at h1
    have hrest := ih h1.2 (fun x hx => h2 x (List.mem_cons_of_mem _ hx))
    show ((expand_subjects g2 subs ++ group_subjects rest).count (g, s)) = _
    rw [List.count_append, hrest,
      count_expand_subjects g g2 s subs (h2 _ (List.mem_cons_self _ _)),
      required_hours_cons]
    by_cases hg : g2 = g
    · have habs : required_hours rest g s = 0 := required_hours_of_absent (hg ▸ h1.1) s
      simp [hg, habs]
    · simp [hg]

/-! Shape of initializer-built genomes and mutated genes. -/

theorem build_genome_aux_spec (p : Problem) (rng : Nat → Nat × Nat) :
    ∀ (ms : List (GroupId × SubjectId)) (i0 : Nat),
      (∀ m ∈ ms, 0 < ((assocGet p.subject_requirements m.2).getD []).length) →
      ∃ g, build_genome_aux p rng ms i0 = some g ∧ g.length = ms.length ∧
        ∀ i (hm : i < ms.length) (hg : i < g.length),
          (g.get ⟨i, hg⟩).subject = (ms.get ⟨i, hm⟩).2 ∧
          (g.get ⟨i, hg⟩).hour = (rng (i0 + i)).2 % HOURS ∧
          (g.get ⟨i, hg⟩).hour < HOURS ∧
          ∃ ls, assocGet p.subject_requirements (ms.get ⟨i, hm⟩).2 = some ls ∧
            (g.get ⟨i, hg⟩).lecturer ∈ ls ∧
            ls[(rng (i0 + i)).1 % ls.length]? = some ((g.get ⟨i, hg⟩).lecturer) := by
  intro ms
  induction ms with
  | nil =>
    intro i0 _
    exact ⟨[], rfl, rfl, fun i hm _ => absurd hm (Nat.not_lt_zero i)⟩
  | cons m ms ih =>
    intro i0 hyp
    have hm0 := hyp m (List.mem_cons_self _ _)
    cases hsub : assocGet p.subject_requirements m.2 with
    | none => rw [hsub] at hm0; simp at hm0
    | some ls =>
      rw [hsub] at hm0
      simp only [Option.getD_some] at hm0
      have hidx : (rng i0).1 % ls.length < ls.length := Nat.mod_lt _ hm0
      have hget : ls[(rng i0).1 % ls.length]? =
          some (ls.get ⟨(rng i0).1 % ls.length, hidx⟩) := by
        rw [List.getElem?_eq_getElem hidx, List.get_eq_getElem]
      obtain ⟨g, hg1, hg2, hg3⟩ := ih (i0 + 1) (fun x hx => hyp x (List.mem_cons_of_mem _ hx))
      refine ⟨⟨m.2, ls.get ⟨(rng i0).1 % ls.length, hidx⟩, (rng i0).2 % HOURS⟩ :: g,
        ?_, ?_, ?_⟩
      · simp only [build_genome_aux, hsub, hget, hg1]
      · simp [hg2]
      · intro i him hig
        cases i with
        | zero =>
          refine ⟨rfl, by simp, Nat.mod_lt _ (by decide), ls, hsub,
            List.get_mem ls _ hidx, hget⟩
        | succ j =>
          have hjm : j < ms.length := by simpa using him
          have hjg : j < g.length := by simpa using hig
          have hstep := hg3 j hjm hjg
          have harith : i0 + 1 + j = i0 + (j + 1) := by omega
          rw [harith] at hstep
          simpa using hstep

theorem random_mutated_shape (p : Problem) (value min_value max_value : Dna)
    (rHour rLect : Nat) (ls : List LecturerId)
    (hmax : max_value.hour ≠ 0)
    (hsub : assocGet p.subject_requirements value.subject = some ls)
    (hls : 0 < ls.length) :
    ∃ d, random_mutated p value min_value max_value rHour rLect = some d ∧
      d.subject = value.subject ∧
      d.hour = rHour % max_value.hour ∧
      d.hour < max_value.hour ∧
      d.lecturer ∈ ls ∧
      ls[rLect % ls.length]? = some d.lecturer ∧
      (max_value = mutator_max_value → d.hour < HOURS - 1) := by
  have hidx : rLect % ls.length < ls.length := Nat.mod_lt _ hls
  have hget : ls[rLect % ls.length]? = some (ls.get ⟨rLect % ls.length, hidx⟩) := by
    rw [List.getElem?_eq_getElem hidx, List.get_eq_getElem]
  refine ⟨⟨value.subject, ls.get ⟨rLect % ls.length, hidx⟩, rHour % max_value.hour⟩,
    ?_, rfl, rfl, ?_, ?_, ?_, ?_⟩
  · simp only [random_mutated, hmax, if_false, hsub, hget]
  · exact Nat.mod_lt _ (Nat.pos_of_ne_zero hmax)
  · exact List.get_mem ls _ hidx
  · exact hget
  · intro hmv
    show rHour % max_value.hour < HOURS - 1
    rw [hmv]
    exact Nat.mod_lt _ (by decide)

/-! Small concrete instances used to instantiate the theorems below. -/

/-- A two-meeting problem: one group needing subjects 0 and 1 for one hour
each, lecturer 1 teaching subject 0 and lecturer 2 teaching subject 1. -/
def example_problem : Problem where
  group_requirements := [(0, [(0, 1), (1, 1)])]
  lecturer_requirements := [(1, 1), (2, 1)]
  subject_requirements := [(0, [1]), (1, [2])]

/-- A problem sharing `example_problem`'s lecturer quotas but nothing else. -/
def example_problem2 : Problem where
  group_requirements := []
  lecturer_requirements := [(1, 1), (2, 1)]
  subject_requirements := []

def example_meetings : List (GroupId × SubjectId) := [(0, 0), (0, 1)]

/-- A conflict-free genome for `example_meetings`. -/
def example_genome : Genome := [⟨0, 1, 0⟩, ⟨1, 2, 1⟩]

/-! Claim theorems. -/

/-- C1: for every genome of the meeting-list's length, `fitness_of` performs
the single scan of §4.1 — a (group, hour) usage set, a (lecturer, hour) usage
set and per-lecturer quotas copied from the problem; `satisfies_group` iff the
(group, hour) pair is fresh, `satisfies_lecturer` iff the quota is nonzero and
the (lecturer, hour) pair is fresh, quota decrement and lecturer-hour
recording only on a satisfied lecturer, contributions of +1, -1 or 0 summed — as
captured verbatim by the spec-side model `fitnessSpec`. -/
theorem fitness_of_refines_spec_scan (p : Problem) (meetings : List (GroupId × SubjectId))
    (genome : Genome) (_hlen : genome.length = meetings.length) :
    fitness_of p meetings genome = some (fitnessSpec p meetings genome) :=
  fitness_of_eq_fitnessSpec p meetings genome

/-- C1 witness: the refinement at a concrete problem and genome. -/
theorem fitness_of_refines_spec_scan_witness :
    example_genome.length = example_meetings.length ∧
    fitness_of example_problem example_meetings example_genome =
      some (fitnessSpec example_problem example_meetings example_genome) :=
  ⟨by decide,
   fitness_of_refines_spec_scan example_problem example_meetings example_genome (by decide)⟩

/-- C2 counterexample: the mutated hour is drawn from `[0, max_value.hour)` =
`[0, HOURS - 1)`, not `[0, HOURS)` as claimed.  At raw hour-draw 19 the code
produces hour `19 % 19 = 0`, while a uniform redraw from `[0, HOURS)` (the
spec model `random_mutated_spec`) produces hour 19; hour 19 is unreachable
for the code's mutation. -/
theorem random_mutated_hour_counterexample :
    random_mutated small_problem ⟨1, 0, 5⟩ mutator_min_value mutator_max_value 19 0 =
      some ⟨1, 0, 0⟩ ∧
    random_mutated_spec small_problem ⟨1, 0, 5⟩ 19 0 = some ⟨1, 0, 19⟩ ∧
    random_mutated small_problem ⟨1, 0, 5⟩ mutator_min_value mutator_max_value 19 0 ≠
      random_mutated_spec small_problem ⟨1, 0, 5⟩ 19 0 :=
  ⟨by decide, by decide, by decide⟩

/-- C2 (amended): when mutation triggers, the subject is unchanged, the new
lecturer is drawn uniformly from the eligible-lecturer list of that subject,
and the new hour is drawn uniformly from `[0, max_value.hour)` — which for
the mutator constructed in `main` (`max_value = mutator_max_value`) is
`[0, HOURS - 1)`, strictly inside `[0, HOURS)`. -/
theorem random_mutated_shape_amended (p : Problem) (value min_value max_value : Dna)
    (rHour rLect : Nat) (ls : List LecturerId)
    (hmax : max_value.hour ≠ 0)
    (hsub : assocGet p.subject_requirements value.subject = some ls)
    (hls : 0 < ls.length) :
    ∃ d, random_mutated p value min_value max_value rHour rLect = some d ∧
      d.subject = value.subject ∧
      d.hour = rHour % max_value.hour ∧
      d.hour < max_value.hour ∧
      d.lecturer ∈ ls ∧
      ls[rLect % ls.length]? = some d.lecturer ∧
      (max_value = mutator_max_value → d.hour < HOURS - 1) :=
  random_mutated_shape p value min_value max_value rHour rLect ls hmax hsub hls

/-- C2 witness: the amended statement at a concrete gene and draws. -/
theorem random_mutated_shape_amended_witness :
    (mutator_max_value.hour ≠ 0 ∧
     assocGet small_problem.subject_requirements (Dna.mk 1 0 5).subject = some [0, 2] ∧
     0 < ([0, 2] : List LecturerId).length) ∧
    (∃ d, random_mutated small_problem ⟨1, 0, 5⟩ mutator_min_value mutator_max_value 7 3 =
        some d ∧
      d.subject = (Dna.mk 1 0 5).subject ∧
      d.hour = 7 % mutator_max_value.hour ∧
      d.hour < mutator_max_value.hour ∧
      d.lecturer ∈ ([0, 2] : List LecturerId) ∧
      ([0, 2] : List LecturerId)[3 % ([0, 2] : List LecturerId).length]? = some d.lecturer ∧
      (mutator_max_value = mutator_max_value → d.hour < HOURS - 1)) :=
  ⟨⟨by decide, by decide, by decide⟩,
   random_mutated_shape_amended small_problem ⟨1, 0, 5⟩ mutator_min_value mutator_max_value
     7 3 [0, 2] (by decide) (by decide) (by decide)⟩

/-- C3: a genome of the meeting-list's length whose (group, hour) pairs are
pairwise distinct, whose (lecturer, hour) pairs are pairwise distinct and in
which no lecturer is assigned more positions than its quota scores exactly
`M`, the number of meetings. -/
theorem fitness_of_conflict_free (p : Problem) (meetings : List (GroupId × SubjectId))
    (genome : Genome)
    (hlen : genome.length = meetings.length)
    (hG : (List.zipWith (fun (m : GroupId × SubjectId) (d : Dna) => (m.1, d.hour))
        meetings genome).Nodup)
    (hL : (genome.map (fun d => (d.lecturer, d.hour))).Nodup)
    (hQ : ∀ d ∈ genome, genome.countP (fun e => decide (e.lecturer = d.lecturer)) ≤
        (assocGet p.lecturer_requirements d.lecturer).getD 0) :
    fitness_of p meetings genome = some ((meetings.length : Int)) := by
  rw [fitness_of_eq_fitnessSpec]
  have hQ2 : ∀ l, genome.countP (fun e => decide (e.lecturer = l)) ≤
      (initSpecState p).quota l := by
    intro l
    by_cases hc : ∃ d ∈ genome, d.lecturer = l
    · obtain ⟨d, hd, hdl⟩ := hc
      have hcount := hQ d hd
      rw [hdl] at hcount
      exact hcount
    · have hz : genome.countP (fun e => decide (e.lecturer = l)) = 0 := by
        rw [List.countP_eq_zero]
        intro d hd
        simp only [decide_eq_true_eq]
        exact fun hh => hc ⟨d, hd, hh⟩
      rw [hz]
      exact Nat.zero_le _
  have hmain := specAux_all_satisfied meetings genome (initSpecState p) hlen hG
    (fun pr _ => Finset.not_mem_empty pr)
    hL
    (fun pr _ => Finset.not_mem_empty pr)
    hQ2
  rw [fitnessSpec, hmain]
  show some ((0 : Int) + meetings.length) = _
  rw [zero_add]

/-- C3 witness: a concrete conflict-free genome scores the meeting count. -/
theorem fitness_of_conflict_free_witness :
    (example_genome.length = example_meetings.length ∧
     (List.zipWith (fun (m : GroupId × SubjectId) (d : Dna) => (m.1, d.hour))
        example_meetings example_genome).Nodup ∧
     (example_genome.map (fun d => (d.lecturer, d.hour))).Nodup ∧
     (∀ d ∈ example_genome,
        example_genome.countP (fun e => decide (e.lecturer = d.lecturer)) ≤
          (assocGet example_problem.lecturer_requirements d.lecturer).getD 0)) ∧
    fitness_of example_problem example_meetings example_genome =
      some ((example_meetings.length : Int)) :=
  ⟨⟨by decide, by decide, by decide, by decide⟩,
   fitness_of_conflict_free example_problem example_meetings example_genome
     (by decide) (by decide) (by decide) (by decide)⟩

/-- C4: a genome of the meeting-list's length in which every position's scan
flags are both false — its (group, hour) pair collides with an earlier
occurrence and its lecturer simultaneously fails the quota/hour check —
scores exactly `-M`.  (The scan's first position always passes the group
check, so this hypothesis is satisfiable only by the empty genome.) -/
theorem fitness_of_all_conflicting (p : Problem) (meetings : List (GroupId × SubjectId))
    (genome : Genome)
    (hlen : genome.length = meetings.length)
    (hfl : ∀ fl ∈ fitness_flags p meetings genome, fl = (false, false)) :
    fitness_of p meetings genome = some (-(meetings.length : Int)) := by
  rw [fitness_of_eq_fitnessSpec]
  have hmain := specAux_all_failed meetings genome (initSpecState p) hlen hfl
  rw [fitnessSpec, hmain]
  show some ((0 : Int) - meetings.length) = _
  rw [zero_sub]

/-- C4 witness: the only genomes satisfying the hypothesis are empty. -/
theorem fitness_of_all_conflicting_witness :
    ((([] : Genome).length = ([] : List (GroupId × SubjectId)).length) ∧
     (∀ fl ∈ fitness_flags example_problem [] [], fl = (false, false))) ∧
    fitness_of example_problem [] [] =
      some (-((([] : List (GroupId × SubjectId)).length : Int))) :=
  ⟨⟨rfl, by decide⟩, fitness_of_all_conflicting example_problem [] [] rfl (by decide)⟩

/-- C5: for every genome of the meeting-list's length the fitness is defined
and lies in `[-M, M]`, and the evaluator's `highest_possible_fitness` and
`lowest_possible_fitness` are `M` and `-M`. -/
theorem fitness_of_within_bounds (p : Problem) (meetings : List (GroupId × SubjectId))
    (genome : Genome) (_hlen : genome.length = meetings.length) :
    ∃ v, fitness_of p meetings genome = some v ∧
      lowest_possible_fitness meetings ≤ v ∧ v ≤ highest_possible_fitness meetings ∧
      highest_possible_fitness meetings = (meetings.length : Int) ∧
      lowest_possible_fitness meetings = -(meetings.length : Int) := by
  refine ⟨fitnessSpec p meetings genome, fitness_of_eq_fitnessSpec p meetings genome,
    ?_, ?_, rfl, rfl⟩
  · have hb : (0 : Int) - meetings.length ≤ fitnessSpec p meetings genome :=
      (specAux_score_bound meetings genome (initSpecState p)).1
    show -(meetings.length : Int) ≤ _
    omega
  · have hb : fitnessSpec p meetings genome ≤ (0 : Int) + meetings.length :=
      (specAux_score_bound meetings genome (initSpecState p)).2
    show _ ≤ (meetings.length : Int)
    omega

/-- C5 witness: the bounds at a concrete problem and genome. -/
theorem fitness_of_within_bounds_witness :
    example_genome.length = example_meetings.length ∧
    (∃ v, fitness_of example_problem example_meetings example_genome = some v ∧
      lowest_possible_fitness example_meetings ≤ v ∧
      v ≤ highest_possible_fitness example_meetings ∧
      highest_possible_fitness example_meetings = (example_meetings.length : Int) ∧
      lowest_possible_fitness example_meetings = -(example_meetings.length : Int)) :=
  ⟨by decide,
   fitness_of_within_bounds example_problem example_meetings example_genome (by decide)⟩

/-- C6: whenever every meeting's subject has a nonempty eligible-lecturer
list, the initializer returns a genome of the meeting-list's length whose
gene at every position carries that meeting's subject, an hour drawn
uniformly from `[0, HOURS)` and a lecturer drawn uniformly from the
subject's eligible-lecturer list. -/
theorem build_genome_shape (p : Problem) (meetings : List (GroupId × SubjectId))
    (rng : Nat → Nat × Nat)
    (hel : ∀ m ∈ meetings, 0 < ((assocGet p.subject_requirements m.2).getD []).length) :
    ∃ g, build_genome p meetings rng = some g ∧ g.length = meetings.length ∧
      ∀ i (hm : i < meetings.length) (hg : i < g.length),
        (g.get ⟨i, hg⟩).subject = (meetings.get ⟨i, hm⟩).2 ∧
        (g.get ⟨i, hg⟩).hour = (rng i).2 % HOURS ∧
        (g.get ⟨i, hg⟩).hour < HOURS ∧
        ∃ ls, assocGet p.subject_requirements (meetings.get ⟨i, hm⟩).2 = some ls ∧
          (g.get ⟨i, hg⟩).lecturer ∈ ls ∧
          ls[(rng i).1 % ls.length]? = some ((g.get ⟨i, hg⟩).lecturer) := by
  obtain ⟨g, h1, h2, h3⟩ := build_genome_aux_spec p rng meetings 0 hel
  refine ⟨g, h1, h2, ?_⟩
  intro i hm hg
  have hstep := h3 i hm hg
  simpa using hstep

/-- C6 witness: the initializer's shape at a concrete problem and stream. -/
theorem build_genome_shape_witness :
    (∀ m ∈ example_meetings,
      0 < ((assocGet example_problem.subject_requirements m.2).getD []).length) ∧
    (∃ g, build_genome example_problem example_meetings (fun i => (i, i)) = some g ∧
      g.length = example_meetings.length ∧
      ∀ i (hm : i < example_meetings.length) (hg : i < g.length),
        (g.get ⟨i, hg⟩).subject = (example_meetings.get ⟨i, hm⟩).2 ∧
        (g.get ⟨i, hg⟩).hour = ((fun (i : Nat) => (i, i)) i).2 % HOURS ∧
        (g.get ⟨i, hg⟩).hour < HOURS ∧
        ∃ ls, assocGet example_problem.subject_requirements
            (example_meetings.get ⟨i, hm⟩).2 = some ls ∧
          (g.get ⟨i, hg⟩).lecturer ∈ ls ∧
          ls[((fun (i : Nat) => (i, i)) i).1 % ls.length]? =
            some ((g.get ⟨i, hg⟩).lecturer)) :=
  ⟨by decide,
   build_genome_shape example_problem example_meetings (fun i => (i, i)) (by decide)⟩

/-- C7: under the `HashMap` key-distinctness invariants, the flattened
meeting list contains each (group, subject) pair exactly as many times as
that group's required hour-count for that subject, and the built-in small
example flattens to exactly 30 meetings. -/
theorem group_subjects_counts (reqs : List (GroupId × List (SubjectId × Nat)))
    (h1 : (reqs.map Prod.fst).Nodup)
    (h2 : ∀ gr ∈ reqs, (gr.2.map Prod.fst).Nodup) :
    (∀ g s, (group_subjects reqs).count (g, s) = required_hours reqs g s) ∧
    (group_subjects small_problem.group_requirements).length = 30 :=
  ⟨fun g s => count_group_subjects g s reqs h1 h2, by decide⟩

/-- C7 witness: the counting property instantiated at the small example. -/
theorem group_subjects_counts_witness :
    ((small_problem.group_requirements.map Prod.fst).Nodup ∧
     (∀ gr ∈ small_problem.group_requirements, (gr.2.map Prod.fst).Nodup)) ∧
    ((∀ g s, (group_subjects small_problem.group_requirements).count (g, s) =
        required_hours small_problem.group_requirements g s) ∧
     (group_subjects small_problem.group_requirements).length = 30) :=
  ⟨⟨by decide, by decide⟩,
   group_subjects_counts small_problem.group_requirements (by decide) (by decide)⟩

/-- C9: fitness evaluation is a pure function of the problem's lecturer
quotas, the meeting list and the genome — two evaluations agree whenever the
lecturer requirements agree, whatever the rest of the two problems holds
(determinism; no hidden or shared state is read or written). -/
theorem fitness_of_deterministic (p1 p2 : Problem) (meetings : List (GroupId × SubjectId))
    (genome : Genome)
    (h : p1.lecturer_requirements = p2.lecturer_requirements) :
    fitness_of p1 meetings genome = fitness_of p2 meetings genome := by
  rw [fitness_of, fitness_of, h]

/-- C9 witness: two problems differing everywhere except the quotas. -/
theorem fitness_of_deterministic_witness :
    example_problem.lecturer_requirements = example_problem2.lecturer_requirements ∧
    fitness_of example_problem example_meetings example_genome =
      fitness_of example_problem2 example_meetings example_genome :=
  ⟨by decide,
   fitness_of_deterministic example_problem example_problem2
     example_meetings example_genome (by decide)⟩

/-- C10: `fitness_of` is total — it never panics, for any genome and any
lecturer identifiers: a lecturer absent from `lecturer_requirements` is read
with default quota 0, fails the lecturer check, and the quota-decrement
`unwrap` is only reached for lecturers present with positive quota. -/
theorem fitness_of_never_panics (p : Problem) (meetings : List (GroupId × SubjectId))
    (genome : Genome) : (fitness_of p meetings genome).isSome = true := by
  rw [fitness_of_eq_fitnessSpec]
  rfl

end ISLab3
